import Mathlib

/-!
Verification of the rtl_wave sample-processing pipeline (src/rtl_wave.c):
the sample converter, the power monitor, the capture loops (sync and
async), and the WAV container header writer, shallowly embedded in Lean.
Machine integers are modelled as Nat with explicit wraparound where the C
performs unsigned arithmetic; the float accumulators of the power monitor
are modelled with exact rationals; the float function db is modelled over
the reals.
-/

/-! ## SampleConverter

Source, rtl_wave.c lines 97 and 417:
`for (int n=0; n<len; n++) buf[n] = buf[n] - 128;`
`buf` is `unsigned char *`, so the subtraction wraps modulo 256. -/

/-- One byte of the in-place conversion `buf[n] = buf[n] - 128` on an
unsigned 8-bit value: subtract 128 with wraparound modulo 256. -/
def convertByte (b : Nat) : Nat := (b + 256 - 128) % 256

/-! ## PowerMonitor

Source, rtl_wave.c lines 225-230 and 363-365, 392-412 (sync loop only). -/

/-- Source line 230: `int interval_seconds = 2;` -/
def interval_seconds : Nat := 2

/-- The power-monitor accumulators of main (source lines 363-365):
`int interval; float ipeak, qpeak; float iavg, qavg;`.
The float accumulators are modelled as exact rationals. -/
structure PMState where
  interval : Nat
  ipeak : ℚ
  qpeak : ℚ
  iavg : ℚ
  qavg : ℚ
deriving DecidableEq

/-- The initial accumulator state (source lines 363-365: all zero). -/
def pmZero : PMState := ⟨0, 0, 0, 0, 0⟩

/-- Normalization of one raw byte (source lines 394-395):
`(float) (buffer[i] - 128) / 128`; `buffer[i]` is promoted to int, so the
subtraction here is exact (not wrapping). -/
def nrm (b : Nat) : ℚ := ((b : ℚ) - 128) / 128

/-- Squaring (source lines 396-397: `ival = ival * ival;`). -/
def sqVal (x : ℚ) : ℚ := x * x

/-- One iteration of the statistics loop body (source lines 392-402) on
the pair `(buffer[i], buffer[i+1])`. -/
def pmStep (s : PMState) (p : Nat × Nat) : PMState :=
  let ival := sqVal (nrm p.1)
  let qval := sqVal (nrm p.2)
  { s with
    iavg := s.iavg + ival
    qavg := s.qavg + qval
    ipeak := if ival > s.ipeak then ival else s.ipeak
    qpeak := if qval > s.qpeak then qval else s.qpeak }

/-- The statistics loop `for (int i=0; i < n; i += 2)` (source lines
392-402) over a buffer `l`, with `n` the loop bound `n_read`.  Each
iteration reads `buffer[i]` and `buffer[i+1]`.  When `n` is odd the last
iteration reads one byte past the loop bound: if that byte exists in `l`
it is used (the case `n < l.length`), and if it lies past the end of the
buffer the read is out of bounds in C (undefined); that read is modelled
as 0 here — see the odd-buffer analysis.  All call sites have
`n ≤ l.length`, so the `[]` case with positive `n` is unreachable. -/
def pmLoop : PMState → List Nat → Nat → PMState
  | s, _, 0 => s
  | s, [], _ + 1 => s
  | s, [a], _ + 1 => pmStep s (a, 0)
  | s, a :: b :: t, n + 1 => pmLoop (pmStep s (a, b)) t (n + 1 - 2)

/-- The interleaved sample pairs of a buffer; for odd length the trailing
byte is dropped (used only to state properties of even-length buffers). -/
def pairs : List Nat → List (Nat × Nat)
  | a :: b :: t => (a, b) :: pairs t
  | _ => []

/-- One buffer's power-monitor pass (source lines 392-412): run the
statistics loop with bound `n = n_read` over buffer `l`, add `n / 2` to
the sample counter (`interval += n_read / 2`), and when the counter
exceeds `samp_rate * interval_seconds` emit a report
`(ipeak, qpeak, iavg/interval, qavg/interval)` — the division is
`iavg /= interval` from lines 406-407 — and reset every accumulator. -/
def pmBuffer (rate : Nat) (s : PMState) (l : List Nat) (n : Nat) :
    PMState × Option (ℚ × ℚ × ℚ × ℚ) :=
  let t := pmLoop s l n
  let t := { t with interval := t.interval + n / 2 }
  if t.interval > rate * interval_seconds then
    (pmZero, some (t.ipeak, t.qpeak, t.iavg / (t.interval : ℚ), t.qavg / (t.interval : ℚ)))
  else (t, none)

/-- The power monitor over a sequence of delivered buffers, collecting
every emitted report (each buffer processed in full: `n_read = length`). -/
def pmRun (rate : Nat) (s : PMState) : List (List Nat) → PMState × List (ℚ × ℚ × ℚ × ℚ)
  | [] => (s, [])
  | b :: rest =>
    let p := pmBuffer rate s b b.length
    let q := pmRun rate p.1 rest
    (q.1, p.2.toList ++ q.2)

/-- The buffer indices read by the statistics loop
`for (i=0; i<n; i+=2) { ... buffer[i] ... buffer[i+1] ... }` (source lines
392-395), computed with fuel (`fuel = n` suffices since `i` grows by 2). -/
def pmIndicesAux : Nat → Nat → Nat → List Nat
  | 0, _, _ => []
  | fuel + 1, i, n => if i < n then i :: (i + 1) :: pmIndicesAux fuel (i + 2) n else []

/-- The indices read by the statistics loop with bound `n`. -/
def pmIndices (n : Nat) : List Nat := pmIndicesAux n 0 n

/-- Source lines 225-228: `float db(float x) { return 10 * logf(x); }`.
`logf` is the C natural logarithm; modelled over the reals. -/
noncomputable def db (x : ℝ) : ℝ := 10 * Real.log x

/-! ## Capture state and the two capture loops

Source, rtl_wave.c lines 44-46 (globals), 85-107 (async callback),
375-431 (sync loop). -/

/-- The capture-control state: the globals `do_exit` (line 44) and
`bytes_to_read` (line 45, the byte budget, 0 = unlimited), whether
`rtlsdr_cancel_async` has been requested, and the bytes handed to
`fwrite` on the output stream so far (the ContainerWriter data path). -/
structure CapState where
  doExit : Bool
  bytesToRead : Nat
  cancelled : Bool
  written : List Nat
deriving DecidableEq

/-- The async callback (source lines 85-107), for a non-null `ctx`.
`wrOk` models the outcome of `fwrite(buf, 1, len, ctx) == len`
(`wrOk = false` is a short write).  Steps, in source order: return if
`do_exit`; if `0 < bytes_to_read < len` truncate `len` to the budget, set
`do_exit` and cancel; convert the first `len` bytes in place and hand
them to `fwrite`; on a short write request cancellation; finally if
`bytes_to_read > 0` subtract `len` from it. -/
def rtlsdr_callback (wrOk : Bool) (s : CapState) (buf : List Nat) : CapState :=
  if s.doExit then s else
  let len := if 0 < s.bytesToRead ∧ s.bytesToRead < buf.length then s.bytesToRead else buf.length
  let s1 := if 0 < s.bytesToRead ∧ s.bytesToRead < buf.length then
    { s with doExit := true, cancelled := true } else s
  let s2 := { s1 with written := s1.written ++ (buf.take len).map convertByte }
  let s3 := if wrOk then s2 else { s2 with cancelled := true }
  if 0 < s3.bytesToRead then { s3 with bytesToRead := s3.bytesToRead - len } else s3

/-- The async capture run: the driver invokes the callback once per
delivered buffer and stops delivering once `rtlsdr_cancel_async` has been
requested.  All writes succeed (`wrOk = true`). -/
def runAsync (s : CapState) : List (List Nat) → CapState
  | [] => s
  | b :: rest => if s.cancelled then s else runAsync (rtlsdr_callback true s b) rest

/-- One iteration of the sync capture loop (source lines 377-431) on the
delivered buffer `bs` (`n_read = bs.length`), with `blk` the
`out_block_size` and `wrOk` the `fwrite` outcome as above.  The returned
Bool is true when the loop stops after this iteration (the `while
(!do_exit)` guard, or a `break`: short write, or short read).  Steps, in
source order: truncate `n_read` to a smaller positive budget and set
`do_exit`; run the power monitor on the buffer; convert the first
`n_read` bytes and hand them to `fwrite`; break on a short write; break
on a short read (`n_read < out_block_size`); otherwise subtract `n_read`
from a positive budget. -/
def syncIter (rate blk : Nat) (wrOk : Bool) (st : CapState × PMState) (bs : List Nat) :
    (CapState × PMState) × Bool :=
  let cap := st.1
  let pm := st.2
  if cap.doExit then (st, true) else
  let n := if 0 < cap.bytesToRead ∧ cap.bytesToRead < bs.length then cap.bytesToRead else bs.length
  let cap1 := if 0 < cap.bytesToRead ∧ cap.bytesToRead < bs.length then
    { cap with doExit := true } else cap
  let pm1 := (pmBuffer rate pm bs n).1
  let cap2 := { cap1 with written := cap1.written ++ (bs.take n).map convertByte }
  if wrOk = false then ((cap2, pm1), true)
  else if n < blk then ((cap2, pm1), true)
  else
    let cap3 := if 0 < cap2.bytesToRead then { cap2 with bytesToRead := cap2.bytesToRead - n } else cap2
    ((cap3, pm1), false)

/-- One buffer of the async mode on the combined state: the callback acts
on the capture state only — the statistics accumulators of main (lines
363-365) are never touched on the async path (lines 432-436). -/
def asyncIter (wrOk : Bool) (st : CapState × PMState) (bs : List Nat) : CapState × PMState :=
  (rtlsdr_callback wrOk st.1 bs, st.2)

/-! ## ContainerWriter: the WAV header

Source, rtl_wave.c lines 113-223.  The packed structs are serialized
field by field, little endian, exactly as their in-memory layout is
passed to `fwrite`. -/

/-- Little-endian bytes of a uint16 store. -/
def u16le (n : Nat) : List Nat := [n % 256, n / 256 % 256]

/-- Little-endian bytes of a uint32 store. -/
def u32le (n : Nat) : List Nat :=
  [n % 256, n / 256 % 256, n / 65536 % 256, n / 16777216 % 256]

/-- `(uint32_t)(-1)`, the sentinel size written for the RIFF and data
chunks (source lines 188 and 221). -/
def u32neg1 : Nat := 4294967295

/-- The packed `datetime_t` (source lines 115-124): eight uint16 fields. -/
structure Datetime where
  year : Nat
  month : Nat
  day_of_week : Nat
  day : Nat
  hour : Nat
  minute : Nat
  second : Nat
  milliseconds : Nat
deriving DecidableEq

/-- The all-zero `datetime_t` produced by `memset(&auxi, 0, ...)`
(source line 214). -/
def zeroDatetime : Datetime := ⟨0, 0, 0, 0, 0, 0, 0, 0⟩

/-- The fields of `struct tm` read by `set_datetime` (source lines
165-175), as returned by `gmtime` for the current UTC time. -/
structure Tm where
  tm_year : Nat
  tm_mon : Nat
  tm_mday : Nat
  tm_hour : Nat
  tm_min : Nat
  tm_sec : Nat

/-- `set_datetime` (source lines 165-175): fills year, month, day, hour,
minute and second from the broken-down UTC time; `day_of_week` and
`milliseconds` are left as they were (zero at the call site). -/
def set_datetime (dt : Datetime) (tm : Tm) : Datetime :=
  { dt with
    year := tm.tm_year + 1900
    month := tm.tm_mon + 1
    day := tm.tm_mday
    hour := tm.tm_hour
    minute := tm.tm_min
    second := tm.tm_sec }

/-- Serialization of `datetime_t`: eight uint16 fields in declaration
order (16 bytes). -/
def datetimeBytes (dt : Datetime) : List Nat :=
  u16le dt.year ++ u16le dt.month ++ u16le dt.day_of_week ++ u16le dt.day ++
  u16le dt.hour ++ u16le dt.minute ++ u16le dt.second ++ u16le dt.milliseconds

/-- The ASCII tag "RIFF". -/
def tag_RIFF : List Nat := [82, 73, 70, 70]
/-- The ASCII tag "WAVE". -/
def tag_WAVE : List Nat := [87, 65, 86, 69]
/-- The ASCII tag "fmt " (with trailing space). -/
def tag_fmt : List Nat := [102, 109, 116, 32]
/-- The ASCII tag "auxi". -/
def tag_auxi : List Nat := [97, 117, 120, 105]
/-- The ASCII tag "data". -/
def tag_data : List Nat := [100, 97, 116, 97]

/-- `sizeof(fmt_t)` (source lines 136-143: 2+2+4+4+2+2 packed bytes). -/
def sizeof_fmt : Nat := 16

/-- `sizeof(auxi_t)` (source lines 147-155: two 16-byte datetimes and
five uint32 fields, packed). -/
def sizeof_auxi : Nat := 52

/-- The `riff_t` record written first (source lines 184-189): tag "RIFF",
size `(uint32_t)(-1)`, type "WAVE". -/
def riffBytes : List Nat := tag_RIFF ++ u32le u32neg1 ++ tag_WAVE

/-- A `chunk_t` record (source lines 159-162): 4-byte tag and uint32 size. -/
def chunkBytes (id : List Nat) (size : Nat) : List Nat := id ++ u32le size

/-- The `fmt_t` body (source lines 197-205): format_tag = 1 (PCM),
channels = 2, samples_per_sec = samp_rate,
data_rate = channels * bits_per_sample / 8 * samples_per_sec (evaluated
left to right in int arithmetic, stored as uint32),
block_size = channels * bits_per_sample / 8, and bits_per_sample.  The
uint32 parameter `bits` is truncated to the uint16 field first. -/
def fmtBytes (rate bits : Nat) : List Nat :=
  let bps := bits % 65536
  u16le 1 ++ u16le 2 ++ u32le rate ++ u32le (2 * bps / 8 * rate) ++
  u16le (2 * bps / 8) ++ u16le bps

/-- The `auxi_t` body (source lines 213-216): zeroed by `memset`, then
`frequency` is set and `set_datetime` fills `start_time`; `stop_time`
and the remaining fields stay zero.  Field order (lines 147-155):
start_time, stop_time, frequency, sample_frequency, if_frequency,
bandwidth, dc_offset. -/
def auxiBytes (freq : Nat) (start stop : Datetime) : List Nat :=
  datetimeBytes start ++ datetimeBytes stop ++ u32le freq ++
  u32le 0 ++ u32le 0 ++ u32le 0 ++ u32le 0

/-- The six records `wave_header` passes to `fwrite`, in source order
(lines 177-223): the RIFF record, the "fmt " chunk header with size
`sizeof(fmt_t)`, the fmt body, the "auxi" chunk header with size
`sizeof(auxi_t)`, the auxi body, and the "data" chunk header with size
`(uint32_t)(-1)`.  `tm` is the broken-down current UTC time supplied by
`time`/`gmtime`. -/
def headerRecords (rate freq bits : Nat) (tm : Tm) : List (List Nat) :=
  [riffBytes,
   chunkBytes tag_fmt sizeof_fmt,
   fmtBytes rate bits,
   chunkBytes tag_auxi sizeof_auxi,
   auxiBytes freq (set_datetime zeroDatetime tm) zeroDatetime,
   chunkBytes tag_data u32neg1]

/-- The byte stream produced by `wave_header` (source lines 177-223) when
every write succeeds. -/
def wave_header (rate freq bits : Nat) (tm : Tm) : List Nat :=
  (headerRecords rate freq bits tm).flatten

/-- The output file of the async capture path of main: the header written
once at stream start (line 367), followed by the converted sample bytes. -/
def captureOutput (rate freq bits : Nat) (tm : Tm) (s : CapState)
    (bufs : List (List Nat)) : List Nat :=
  wave_header rate freq bits tm ++ (runAsync s bufs).written

/-- Writing a sequence of records where each `fwrite` is guarded by
`if (fwrite(...) != size) exit(1)` (source lines 189-222): `ok k` is the
outcome of the `k`-th write counted from `k0`.  Returns the records
actually handed to `fwrite` and whether all succeeded; a failure stops
immediately (`exit(1)`), so nothing after it is attempted and nothing is
ever retried. -/
def writeSeq (ok : Nat → Bool) : Nat → List (List Nat) → List (List Nat) × Bool
  | _, [] => ([], true)
  | k, r :: rs =>
    if ok k then
      let p := writeSeq ok (k + 1) rs
      (r :: p.1, p.2)
    else ([r], false)

/-! ## Output block size fallback

Source, rtl_wave.c lines 39-42 and 293-302. -/

/-- Source line 39. -/
def DEFAULT_SAMPLE_RATE : Nat := 2048000
/-- Source line 40. -/
def DEFAULT_BUF_LENGTH : Nat := 16 * 16384
/-- Source line 41. -/
def MINIMAL_BUF_LENGTH : Nat := 512
/-- Source line 42. -/
def MAXIMAL_BUF_LENGTH : Nat := 256 * 16384

/-- The block-size check of main (source lines 293-302): an
`out_block_size` below the minimum or above the maximum falls back to the
default; otherwise it is used unchanged. -/
def resolveBlockSize (n : Nat) : Nat :=
  if n < MINIMAL_BUF_LENGTH ∨ n > MAXIMAL_BUF_LENGTH then DEFAULT_BUF_LENGTH else n

/-! ## Helper lemmas about the power monitor -/

/-- The statistics loop never touches the sample counter (it is bumped
once per buffer at line 404). -/
lemma pmLoop_interval : ∀ (l : List Nat) (n : Nat) (s : PMState),
    (pmLoop s l n).interval = s.interval
  | [], 0, _ => rfl
  | [_], 0, _ => rfl
  | _ :: _ :: _, 0, _ => rfl
  | [], _ + 1, _ => rfl
  | [_], _ + 1, _ => rfl
  | a :: b :: t, n + 1, s => pmLoop_interval t (n + 1 - 2) (pmStep s (a, b))

/-- A buffer has `length / 2` interleaved pairs. -/
lemma pairs_length : ∀ l : List Nat, (pairs l).length = l.length / 2
  | [] => by simp [pairs]
  | [_] => by simp [pairs]
  | _ :: _ :: t => by
      rw [pairs, List.length_cons, pairs_length t]
      simp only [List.length_cons]
      omega

/-- For an even loop bound within the buffer, the statistics loop is the
fold of `pmStep` over the interleaved pairs of the processed prefix. -/
lemma pmLoop_two_mul : ∀ (k : Nat) (l : List Nat) (s : PMState), 2 * k ≤ l.length →
    pmLoop s l (2 * k) = (pairs (l.take (2 * k))).foldl pmStep s
  | 0, l, s, _ => by simp [pmLoop, pairs]
  | _ + 1, [], _, h => by simp at h
  | _ + 1, [_], _, h => by simp at h; omega
  | k + 1, a :: b :: t, s, h => by
      have e : 2 * (k + 1) = (2 * k + 1) + 1 := by ring
      rw [e]
      show pmLoop (pmStep s (a, b)) t (2 * k + 1 + 1 - 2)
        = (pairs ((a :: b :: t).take (2 * k + 1 + 1))).foldl pmStep s
      have e2 : 2 * k + 1 + 1 - 2 = 2 * k := by omega
      have ht : 2 * k ≤ t.length := by simp only [List.length_cons] at h; omega
      rw [e2, pmLoop_two_mul k t (pmStep s (a, b)) ht]
      simp [pairs, List.take_succ_cons]

/-- The statistics loop over a whole even-length buffer is the fold of
`pmStep` over its interleaved pairs. -/
lemma pmLoop_len_even (s : PMState) (l : List Nat) (h : l.length % 2 = 0) :
    pmLoop s l l.length = (pairs l).foldl pmStep s := by
  obtain ⟨k, hk⟩ : ∃ k, l.length = 2 * k := ⟨l.length / 2, by omega⟩
  calc pmLoop s l l.length = pmLoop s l (2 * k) := by rw [hk]
    _ = (pairs (l.take (2 * k))).foldl pmStep s := pmLoop_two_mul k l s (by omega)
    _ = (pairs l).foldl pmStep s := by rw [← hk, List.take_length]

/-- The fold of `pmStep` leaves the counter unchanged. -/
lemma foldl_pmStep_interval : ∀ (ps : List (Nat × Nat)) (s : PMState),
    (ps.foldl pmStep s).interval = s.interval
  | [], _ => rfl
  | _ :: t, s => foldl_pmStep_interval t (pmStep s _)

/-- Channel-0 sum accumulation in closed form. -/
lemma foldl_pmStep_iavg : ∀ (ps : List (Nat × Nat)) (s : PMState),
    (ps.foldl pmStep s).iavg = s.iavg + (ps.map (fun p => sqVal (nrm p.1))).sum
  | [], s => by simp
  | p :: t, s => by
      rw [List.foldl_cons, foldl_pmStep_iavg t (pmStep s p)]
      show s.iavg + sqVal (nrm p.1) + _ = _
      rw [List.map_cons, List.sum_cons]
      ring

/-- Channel-1 sum accumulation in closed form. -/
lemma foldl_pmStep_qavg : ∀ (ps : List (Nat × Nat)) (s : PMState),
    (ps.foldl pmStep s).qavg = s.qavg + (ps.map (fun p => sqVal (nrm p.2))).sum
  | [], s => by simp
  | p :: t, s => by
      rw [List.foldl_cons, foldl_pmStep_qavg t (pmStep s p)]
      show s.qavg + sqVal (nrm p.2) + _ = _
      rw [List.map_cons, List.sum_cons]
      ring

/-- The guarded update `if (ival > ipeak) ipeak = ival` is the max. -/
lemma pmStep_ipeak (s : PMState) (p : Nat × Nat) :
    (pmStep s p).ipeak = max s.ipeak (sqVal (nrm p.1)) := by
  show (if sqVal (nrm p.1) > s.ipeak then sqVal (nrm p.1) else s.ipeak) = _
  rcases le_or_lt (sqVal (nrm p.1)) s.ipeak with h | h
  · rw [if_neg (not_lt.mpr h), max_eq_left h]
  · rw [if_pos h, max_eq_right h.le]

/-- The guarded update `if (qval > qpeak) qpeak = qval` is the max. -/
lemma pmStep_qpeak (s : PMState) (p : Nat × Nat) :
    (pmStep s p).qpeak = max s.qpeak (sqVal (nrm p.2)) := by
  show (if sqVal (nrm p.2) > s.qpeak then sqVal (nrm p.2) else s.qpeak) = _
  rcases le_or_lt (sqVal (nrm p.2)) s.qpeak with h | h
  · rw [if_neg (not_lt.mpr h), max_eq_left h]
  · rw [if_pos h, max_eq_right h.le]

/-- Channel-0 peak accumulation in closed form: max-so-far. -/
lemma foldl_pmStep_ipeak : ∀ (ps : List (Nat × Nat)) (s : PMState),
    (ps.foldl pmStep s).ipeak = (ps.map (fun p => sqVal (nrm p.1))).foldl max s.ipeak
  | [], s => by simp
  | p :: t, s => by
      rw [List.foldl_cons, foldl_pmStep_ipeak t (pmStep s p), List.map_cons, List.foldl_cons,
        pmStep_ipeak]

/-- Channel-1 peak accumulation in closed form: max-so-far. -/
lemma foldl_pmStep_qpeak : ∀ (ps : List (Nat × Nat)) (s : PMState),
    (ps.foldl pmStep s).qpeak = (ps.map (fun p => sqVal (nrm p.2))).foldl max s.qpeak
  | [], s => by simp
  | p :: t, s => by
      rw [List.foldl_cons, foldl_pmStep_qpeak t (pmStep s p), List.map_cons, List.foldl_cons,
        pmStep_qpeak]

/-- The seed is below a fold of max. -/
lemma le_foldl_max : ∀ (l : List ℚ) (a : ℚ), a ≤ l.foldl max a
  | [], _ => le_refl _
  | x :: t, a => le_trans (le_max_left a x) (le_foldl_max t (max a x))

/-- Every element is below a fold of max. -/
lemma mem_le_foldl_max : ∀ (l : List ℚ) (a x : ℚ), x ∈ l → x ≤ l.foldl max a
  | [], _, _, h => absurd h (List.not_mem_nil _)
  | y :: t, a, x, h => by
      rcases List.mem_cons.mp h with rfl | h
      · exact le_trans (le_max_right a x) (le_foldl_max t (max a x))
      · exact mem_le_foldl_max t (max a y) x h

/-- A list of elements each at most `M` sums to at most `length * M`. -/
lemma list_sum_le_length_mul : ∀ (l : List ℚ) (M : ℚ), (∀ x ∈ l, x ≤ M) →
    l.sum ≤ (l.length : ℚ) * M
  | [], M, _ => by simp
  | x :: t, M, h => by
      rw [List.sum_cons, List.length_cons]
      have h1 : x ≤ M := h x (List.mem_cons_self x t)
      have h2 : t.sum ≤ (t.length : ℚ) * M :=
        list_sum_le_length_mul t M (fun y hy => h y (List.mem_cons_of_mem x hy))
      push_cast
      nlinarith [h1, h2]

/-- Squares are nonnegative. -/
lemma sqVal_nonneg (x : ℚ) : 0 ≤ sqVal x := mul_self_nonneg x

/-- The invariant carried by the accumulators between buffers: peaks and
sums are nonnegative and each sum is at most `counter * peak`, since each
summand was below the running peak when added. -/
def pmInv (s : PMState) : Prop :=
  0 ≤ s.ipeak ∧ 0 ≤ s.qpeak ∧ 0 ≤ s.iavg ∧ 0 ≤ s.qavg ∧
  s.iavg ≤ (s.interval : ℚ) * s.ipeak ∧ s.qavg ≤ (s.interval : ℚ) * s.qpeak

lemma pmInv_zero : pmInv pmZero := by
  simp [pmInv, pmZero]

/-- Folding a list of pairs and bumping the counter by the number of
pairs preserves the invariant. -/
lemma accum_inv (s : PMState) (ps : List (Nat × Nat)) (hs : pmInv s) :
    pmInv { ps.foldl pmStep s with interval := s.interval + ps.length } := by
  obtain ⟨h1, h2, h3, h4, h5, h6⟩ := hs
  have hiavg := foldl_pmStep_iavg ps s
  have hqavg := foldl_pmStep_qavg ps s
  have hipeak := foldl_pmStep_ipeak ps s
  have hqpeak := foldl_pmStep_qpeak ps s
  have hIpk : s.ipeak ≤ (ps.foldl pmStep s).ipeak := hipeak ▸ le_foldl_max _ _
  have hQpk : s.qpeak ≤ (ps.foldl pmStep s).qpeak := hqpeak ▸ le_foldl_max _ _
  have hImem : ∀ x ∈ ps.map (fun p => sqVal (nrm p.1)), x ≤ (ps.foldl pmStep s).ipeak :=
    fun x hx => hipeak ▸ mem_le_foldl_max _ _ x hx
  have hQmem : ∀ x ∈ ps.map (fun p => sqVal (nrm p.2)), x ≤ (ps.foldl pmStep s).qpeak :=
    fun x hx => hqpeak ▸ mem_le_foldl_max _ _ x hx
  have hInn : (0 : ℚ) ≤ (ps.map (fun p => sqVal (nrm p.1))).sum :=
    List.sum_nonneg (by rintro x hx; obtain ⟨p, _, rfl⟩ := List.mem_map.mp hx; exact sqVal_nonneg _)
  have hQnn : (0 : ℚ) ≤ (ps.map (fun p => sqVal (nrm p.2))).sum :=
    List.sum_nonneg (by rintro x hx; obtain ⟨p, _, rfl⟩ := List.mem_map.mp hx; exact sqVal_nonneg _)
  have hIsum : (ps.map (fun p => sqVal (nrm p.1))).sum
      ≤ ((ps.length : ℚ)) * (ps.foldl pmStep s).ipeak := by
    have := list_sum_le_length_mul _ _ hImem
    simpa using this
  have hQsum : (ps.map (fun p => sqVal (nrm p.2))).sum
      ≤ ((ps.length : ℚ)) * (ps.foldl pmStep s).qpeak := by
    have := list_sum_le_length_mul _ _ hQmem
    simpa using this
  refine ⟨le_trans h1 hIpk, le_trans h2 hQpk, ?_, ?_, ?_, ?_⟩
  · show (0 : ℚ) ≤ (ps.foldl pmStep s).iavg
    rw [hiavg]; positivity
  · show (0 : ℚ) ≤ (ps.foldl pmStep s).qavg
    rw [hqavg]; positivity
  · show (ps.foldl pmStep s).iavg ≤ ((s.interval + ps.length : ℕ) : ℚ) * (ps.foldl pmStep s).ipeak
    rw [hiavg]
    push_cast
    have hup : s.iavg ≤ (s.interval : ℚ) * (ps.foldl pmStep s).ipeak :=
      le_trans h5 (mul_le_mul_of_nonneg_left hIpk (by positivity))
    nlinarith [hup, hIsum]
  · show (ps.foldl pmStep s).qavg ≤ ((s.interval + ps.length : ℕ) : ℚ) * (ps.foldl pmStep s).qpeak
    rw [hqavg]
    push_cast
    have hup : s.qavg ≤ (s.interval : ℚ) * (ps.foldl pmStep s).qpeak :=
      le_trans h6 (mul_le_mul_of_nonneg_left hQpk (by positivity))
    nlinarith [hup, hQsum]

/-- For an even full buffer, one power-monitor pass in terms of the fold
over pairs. -/
lemma pmBuffer_even (rate : Nat) (s : PMState) (l : List Nat) (h : l.length % 2 = 0) :
    pmBuffer rate s l l.length =
      (if s.interval + (pairs l).length > rate * interval_seconds then
        (pmZero,
         some (((pairs l).foldl pmStep s).ipeak, ((pairs l).foldl pmStep s).qpeak,
           ((pairs l).foldl pmStep s).iavg / ((s.interval + (pairs l).length : ℕ) : ℚ),
           ((pairs l).foldl pmStep s).qavg / ((s.interval + (pairs l).length : ℕ) : ℚ)))
      else ({ (pairs l).foldl pmStep s with interval := s.interval + (pairs l).length }, none)) := by
  simp only [pmBuffer]
  rw [pmLoop_len_even s l h, foldl_pmStep_interval, pairs_length]

/-- Invariant preservation over one even full buffer. -/
lemma pmBuffer_inv (rate : Nat) (s : PMState) (l : List Nat) (hs : pmInv s)
    (h : l.length % 2 = 0) : pmInv (pmBuffer rate s l l.length).1 := by
  rw [pmBuffer_even rate s l h]
  split
  · exact pmInv_zero
  · exact accum_inv s (pairs l) hs

/-- Bounds on an emitted report from an even full buffer: peaks and means
are nonnegative and each channel's mean is at most its peak. -/
lemma pmBuffer_report (rate : Nat) (s : PMState) (l : List Nat) (r : ℚ × ℚ × ℚ × ℚ)
    (hs : pmInv s) (h : l.length % 2 = 0)
    (hr : (pmBuffer rate s l l.length).2 = some r) :
    0 ≤ r.1 ∧ 0 ≤ r.2.1 ∧ 0 ≤ r.2.2.1 ∧ 0 ≤ r.2.2.2 ∧ r.2.2.1 ≤ r.1 ∧ r.2.2.2 ≤ r.2.1 := by
  rw [pmBuffer_even rate s l h] at hr
  by_cases hc : s.interval + (pairs l).length > rate * interval_seconds
  swap
  · rw [if_neg hc] at hr; exact absurd hr (by simp)
  rw [if_pos hc] at hr
  simp only [Option.some.injEq] at hr
  obtain ⟨i1, i2, i3, i4, i5, i6⟩ := accum_inv s (pairs l) hs
  have hpos : (0 : ℚ) < ((s.interval + (pairs l).length : ℕ) : ℚ) := by
    have : 0 < s.interval + (pairs l).length := by omega
    exact_mod_cast this
  subst hr
  refine ⟨i1, i2, div_nonneg i3 hpos.le, div_nonneg i4 hpos.le, ?_, ?_⟩
  · exact (div_le_iff₀ hpos).mpr (by rw [mul_comm]; exact i5)
  · exact (div_le_iff₀ hpos).mpr (by rw [mul_comm]; exact i6)

/-- Every report emitted over a run of even full buffers satisfies the
per-channel bounds. -/
lemma pmRun_reports (rate : Nat) : ∀ (bufs : List (List Nat)) (s : PMState), pmInv s →
    (∀ b ∈ bufs, b.length % 2 = 0) →
    ∀ r ∈ (pmRun rate s bufs).2,
      0 ≤ r.1 ∧ 0 ≤ r.2.1 ∧ 0 ≤ r.2.2.1 ∧ 0 ≤ r.2.2.2 ∧ r.2.2.1 ≤ r.1 ∧ r.2.2.2 ≤ r.2.1
  | [], _, _, _, _, hr => by simp [pmRun] at hr
  | b :: rest, s, hs, hev, r, hr => by
      simp only [pmRun, List.mem_append] at hr
      rcases hr with hr | hr
      · have hb : b.length % 2 = 0 := hev b (List.mem_cons_self b rest)
        rcases o : (pmBuffer rate s b b.length).2 with _ | rep
        · rw [o] at hr; exact absurd hr (by simp)
        · rw [o] at hr
          simp only [Option.toList_some, List.mem_singleton] at hr
          subst hr
          exact pmBuffer_report rate s b r hs hb o
      · exact pmRun_reports rate rest (pmBuffer rate s b b.length).1
          (pmBuffer_inv rate s b hs (hev b (List.mem_cons_self b rest)))
          (fun x hx => hev x (List.mem_cons_of_mem b hx)) r hr

/-- The normalized value of a byte lies in the interval from -1
(inclusive) to 1 (exclusive). -/
lemma nrm_range (b : Nat) (hb : b ≤ 255) : -1 ≤ nrm b ∧ nrm b < 1 := by
  have h0 : (0 : ℚ) ≤ (b : ℚ) := Nat.cast_nonneg b
  have h255 : (b : ℚ) ≤ 255 := by exact_mod_cast hb
  constructor
  · rw [nrm, le_div_iff₀ (by norm_num : (0 : ℚ) < 128)]
    linarith
  · rw [nrm, div_lt_iff₀ (by norm_num : (0 : ℚ) < 128)]
    linarith

/-! ## The claims -/

/-- C1: with a byte budget set, the pipeline is claimed to deliver exactly
the requested number of bytes and to stop when the budget reaches zero.
The code only truncates and stops when the remaining budget is strictly
smaller than the delivered buffer (line 91); when the budget is an exact
multiple of the buffer length it reaches zero without `do_exit` ever
being set, and a zero `bytes_to_read` is indistinguishable from "no
limit", so capture continues and writes past the requested count.  With
budget 2 and two 2-byte buffers the run writes 4 bytes and never exits;
with budget 3 (not a multiple) it truncates and stops as claimed. -/
theorem c1_byte_budget_exact_multiple :
    (runAsync ⟨false, 2, false, []⟩ [[1, 2], [3, 4]]).written.length = 4 ∧
    (runAsync ⟨false, 2, false, []⟩ [[1, 2], [3, 4]]).doExit = false ∧
    (runAsync ⟨false, 2, false, []⟩ [[1, 2], [3, 4]]).bytesToRead = 0 ∧
    (runAsync ⟨false, 3, false, []⟩ [[1, 2], [3, 4]]).written.length = 3 ∧
    (runAsync ⟨false, 3, false, []⟩ [[1, 2], [3, 4]]).doExit = true := by
  decide

/-- C2: the report is claimed to print `10 * log10(peak)` decibels, but
the source function `db` (lines 225-228) computes `10 * logf(x)` with the
natural logarithm: at `x = 1/10` it yields `10 * ln(1/10) ≈ -23.03`,
while `10 * log10(1/10) = -10`. -/
theorem c2_db_is_natural_log :
    db (1 / 10) ≠ 10 * Real.logb 10 (1 / 10) ∧ 10 * Real.logb 10 (1 / 10) = -10 := by
  have hlog10 : (0 : ℝ) < Real.log 10 := Real.log_pos (by norm_num)
  have hb : Real.logb 10 ((1 : ℝ) / 10) = -1 := by
    rw [one_div, Real.logb, Real.log_inv, neg_div, div_self hlog10.ne']
  constructor
  · rw [db, hb, one_div, Real.log_inv]
    intro hEq
    have h1 : Real.log 10 = 1 := by linarith
    have h2 : Real.exp 1 = 10 := by rw [← h1, Real.exp_log (by norm_num : (0 : ℝ) < 10)]
    have h3 : Real.exp 1 < 3 := lt_trans Real.exp_one_lt_d9 (by norm_num)
    linarith
  · rw [hb]; norm_num

/-- C3 (counterexample): the claim says every buffer is processed by all
three pipeline components in either mode; but the async callback (lines
85-107) contains no power-monitor code at all — after one identical
buffer the sync iteration has updated the statistics accumulators while
the async iteration has left them untouched. -/
theorem c3_counterexample_async_no_monitor :
    (asyncIter true (⟨false, 0, false, []⟩, pmZero) [0, 0]).2 = pmZero ∧
    (syncIter 1 2 true (⟨false, 0, false, []⟩, pmZero) [0, 0]).1.2 ≠ pmZero := by
  refine ⟨rfl, ?_⟩
  norm_num [syncIter, pmBuffer, pmLoop, pmStep, pmZero, nrm, sqVal, interval_seconds]

/-- C3 (amended): in both modes the buffer is truncated by the same
budget rule, converted by SampleConverter and handed to ContainerWriter
identically — but only the sync iteration runs PowerMonitor; the async
callback leaves the statistics state untouched. -/
theorem c3_modes_share_convert_and_write (rate blk : Nat) (wrOk : Bool) (cap : CapState)
    (pm : PMState) (bs : List Nat) (h : cap.doExit = false) :
    (asyncIter wrOk (cap, pm) bs).2 = pm ∧
    (asyncIter wrOk (cap, pm) bs).1.written = cap.written ++
      (bs.take (if 0 < cap.bytesToRead ∧ cap.bytesToRead < bs.length then cap.bytesToRead
        else bs.length)).map convertByte ∧
    (syncIter rate blk wrOk (cap, pm) bs).1.1.written = cap.written ++
      (bs.take (if 0 < cap.bytesToRead ∧ cap.bytesToRead < bs.length then cap.bytesToRead
        else bs.length)).map convertByte ∧
    (syncIter rate blk wrOk (cap, pm) bs).1.2 =
      (pmBuffer rate pm bs (if 0 < cap.bytesToRead ∧ cap.bytesToRead < bs.length
        then cap.bytesToRead else bs.length)).1 := by
  refine ⟨rfl, ?_, ?_, ?_⟩ <;>
  · simp only [asyncIter, rtlsdr_callback, syncIter, h, Bool.false_eq_true, if_false]
    split_ifs <;> rfl

/-- C3 (witness for the amended statement). -/
theorem c3_modes_share_convert_and_write_witness :
    (syncIter 1 2 true (⟨false, 0, false, []⟩, pmZero) [0, 0]).1.2
      = (pmBuffer 1 pmZero [0, 0] 2).1 := by
  have h := c3_modes_share_convert_and_write 1 2 true ⟨false, 0, false, []⟩ pmZero [0, 0] rfl
  simpa using h.2.2.2

/-- C4: the claim says that on an odd-length buffer the statistics loop
reads only the first N-1 bytes (the trailing byte ignored, no access past
the pairs).  The loop `for (i=0; i<n; i+=2)` in fact runs an iteration at
`i = N-1` for odd N, using the trailing byte as a channel-0 sample and
reading `buffer[N]` — one past the processed length, out of bounds when
the buffer ends there: for N = 3 the indices read are 0, 1, 2 and 3.
The writer does hand all N bytes to `fwrite` (lines 417-419). -/
theorem c4_odd_buffer_reads_past_end :
    pmIndices 3 = [0, 1, 2, 3] ∧
    (syncIter 1 4 true (⟨false, 0, false, []⟩, pmZero) [10, 20, 30]).1.1.written
      = [138, 148, 158] := by
  decide

/-- C5 (counterexample): the claim says round-trip requires re-adding
128 and that reapplying the transform does not restore the byte; but
subtracting 128 modulo 256 is the same as adding 128 modulo 256, so
applying the transform twice is the identity: at byte 7 the double
transform returns 7. -/
theorem c5_counterexample_involution :
    convertByte (convertByte 7) = 7 ∧ convertByte 7 ≠ 7 ∧ (convertByte 7 + 128) % 256 = 7 := by
  decide

/-- C5 (amended): for every byte b below 256 the converter maps b to
(b - 128) mod 256, elementwise and length-preserving; it is not
idempotent (no byte is fixed), and it is an involution: reapplying it —
equivalently re-adding 128 — restores the original byte. -/
theorem c5_sample_converter (b : Nat) (bs : List Nat) (hb : b < 256) :
    ((convertByte b : ℤ) = ((b : ℤ) - 128) % 256) ∧
    (bs.map convertByte).length = bs.length ∧
    convertByte b ≠ b ∧
    convertByte (convertByte b) ≠ convertByte b ∧
    convertByte (convertByte b) = b ∧
    (convertByte b + 128) % 256 = b := by
  refine ⟨?_, List.length_map bs convertByte, ?_, ?_, ?_, ?_⟩ <;>
    simp only [convertByte] <;> omega

/-- C5 (witness for the amended statement). -/
theorem c5_sample_converter_witness :
    (5 : Nat) < 256 ∧ convertByte (convertByte 5) = 5 :=
  ⟨by decide, (c5_sample_converter 5 [1, 2] (by decide)).2.2.2.2.1⟩

/-- C8: a requested block size strictly below the minimum (512) or
strictly above the maximum (256 * 16384) is replaced by the default
(16 * 16384); any size within the bounds is used unchanged. -/
theorem c8_block_size_fallback (n : Nat) :
    ((n < MINIMAL_BUF_LENGTH ∨ n > MAXIMAL_BUF_LENGTH) →
      resolveBlockSize n = DEFAULT_BUF_LENGTH) ∧
    (MINIMAL_BUF_LENGTH ≤ n → n ≤ MAXIMAL_BUF_LENGTH → resolveBlockSize n = n) := by
  constructor
  · intro h
    simp only [resolveBlockSize]
    rw [if_pos h]
  · intro h1 h2
    simp only [resolveBlockSize]
    rw [if_neg (by omega)]

/-- C8 (witness). -/
theorem c8_block_size_fallback_witness :
    resolveBlockSize 100 = DEFAULT_BUF_LENGTH ∧ resolveBlockSize 1000 = 1000 :=
  ⟨(c8_block_size_fallback 100).1 (Or.inl (by decide)),
   (c8_block_size_fallback 1000).2 (by decide) (by decide)⟩

/-- C6: `wave_header` emits, in order, the RIFF record with sentinel size
`(uint32_t)(-1)` and type WAVE, the "fmt " chunk whose size field equals
the exact 16-byte body with PCM tag 1, 2 channels, the sample rate, byte
rate = channels * bytes-per-sample * rate, block align =
channels * bytes-per-sample, and the bit depth, the "auxi" chunk whose
size field equals the exact 52-byte body with the current UTC start time,
a zeroed stop time, the centre frequency and zeros elsewhere, and the
"data" chunk header with sentinel size — all before any sample byte. -/
theorem c6_wave_header_layout (rate freq bits : Nat) (tm : Tm) (s : CapState)
    (bufs : List (List Nat)) (hb : bits % 8 = 0) (hb2 : bits < 65536) :
    headerRecords rate freq bits tm =
      [tag_RIFF ++ u32le u32neg1 ++ tag_WAVE,
       tag_fmt ++ u32le sizeof_fmt,
       fmtBytes rate bits,
       tag_auxi ++ u32le sizeof_auxi,
       auxiBytes freq (set_datetime zeroDatetime tm) zeroDatetime,
       tag_data ++ u32le u32neg1] ∧
    fmtBytes rate bits = u16le 1 ++ u16le 2 ++ u32le rate ++
      u32le (2 * (bits / 8) * rate) ++ u16le (2 * (bits / 8)) ++ u16le bits ∧
    (fmtBytes rate bits).length = sizeof_fmt ∧
    auxiBytes freq (set_datetime zeroDatetime tm) zeroDatetime =
      datetimeBytes (set_datetime zeroDatetime tm) ++ datetimeBytes zeroDatetime ++
      u32le freq ++ u32le 0 ++ u32le 0 ++ u32le 0 ++ u32le 0 ∧
    (auxiBytes freq (set_datetime zeroDatetime tm) zeroDatetime).length = sizeof_auxi ∧
    set_datetime zeroDatetime tm =
      ⟨tm.tm_year + 1900, tm.tm_mon + 1, 0, tm.tm_mday, tm.tm_hour, tm.tm_min, tm.tm_sec, 0⟩ ∧
    (captureOutput rate freq bits tm s bufs).take (wave_header rate freq bits tm).length
      = wave_header rate freq bits tm := by
  refine ⟨rfl, ?_, ?_, rfl, ?_, rfl, ?_⟩
  · simp only [fmtBytes]
    rw [Nat.mod_eq_of_lt hb2, Nat.mul_div_assoc 2 (Nat.dvd_of_mod_eq_zero hb)]
  · simp [fmtBytes, u16le, u32le, sizeof_fmt]
  · simp [auxiBytes, datetimeBytes, u16le, u32le, sizeof_auxi]
  · simp only [captureOutput]
    exact List.take_left _ _

/-- C6 (witness): at sample rate 2048000 and 8 bits per sample the
derived byte rate is 4096000 and the block alignment 2, and the fmt body
is exactly 16 bytes, the value of its chunk size field. -/
theorem c6_wave_header_layout_witness :
    fmtBytes 2048000 8 = u16le 1 ++ u16le 2 ++ u32le 2048000 ++ u32le 4096000 ++
      u16le 2 ++ u16le 8 ∧
    (fmtBytes 2048000 8).length = sizeof_fmt := by
  have h := c6_wave_header_layout 2048000 100000000 8 ⟨125, 9, 11, 4, 30, 0⟩
    ⟨false, 0, false, []⟩ [] (by decide) (by decide)
  refine ⟨?_, h.2.2.1⟩
  rw [h.2.1]

/-- C7: over an even-length buffer the statistics loop adds each pair's
squared normalized values to the channel sums, tracks the max-so-far
peaks, leaves the counter to be bumped by one per pair, and the report
fires exactly when the counter exceeds `samp_rate * interval_seconds`
(with `interval_seconds = 2`), resetting every accumulator to zero; each
raw byte normalizes into the interval from -1 (inclusive) to 1
(exclusive). -/
theorem c7_power_monitor (rate : Nat) (s : PMState) (l : List Nat)
    (h : l.length % 2 = 0) :
    (pmLoop s l l.length).iavg
      = s.iavg + ((pairs l).map (fun p => sqVal (nrm p.1))).sum ∧
    (pmLoop s l l.length).qavg
      = s.qavg + ((pairs l).map (fun p => sqVal (nrm p.2))).sum ∧
    (pmLoop s l l.length).ipeak
      = ((pairs l).map (fun p => sqVal (nrm p.1))).foldl max s.ipeak ∧
    (pmLoop s l l.length).qpeak
      = ((pairs l).map (fun p => sqVal (nrm p.2))).foldl max s.qpeak ∧
    (pairs l).length = l.length / 2 ∧
    ((pmBuffer rate s l l.length).2.isSome
      ↔ s.interval + l.length / 2 > rate * interval_seconds) ∧
    ((pmBuffer rate s l l.length).2.isSome → (pmBuffer rate s l l.length).1 = pmZero) ∧
    interval_seconds = 2 ∧
    (∀ b : Nat, b ≤ 255 → -1 ≤ nrm b ∧ nrm b < 1) := by
  have hl := pmLoop_len_even s l h
  refine ⟨?_, ?_, ?_, ?_, pairs_length l, ?_, ?_, rfl, nrm_range⟩
  · rw [hl]; exact foldl_pmStep_iavg _ _
  · rw [hl]; exact foldl_pmStep_qavg _ _
  · rw [hl]; exact foldl_pmStep_ipeak _ _
  · rw [hl]; exact foldl_pmStep_qpeak _ _
  · rw [pmBuffer_even rate s l h, pairs_length l]
    split_ifs with hc
    · simpa using hc
    · simpa using hc
  · rw [pmBuffer_even rate s l h]
    split_ifs with hc
    · intro _; rfl
    · intro hs; exact absurd hs (by simp)

/-- C7 (witness). -/
theorem c7_power_monitor_witness :
    ([255, 0] : List Nat).length % 2 = 0 ∧ (pmBuffer 0 pmZero [255, 0] 2).1 = pmZero := by
  have h := c7_power_monitor 0 pmZero [255, 0] (by decide)
  exact ⟨by decide, h.2.2.2.2.2.2.1 ((h.2.2.2.2.2.1).mpr (by decide))⟩

/-- When every write succeeds, the guarded write sequence hands every
record to `fwrite`, in order, once each. -/
lemma writeSeq_all_ok (ok : Nat → Bool) (h : ∀ i, ok i = true) :
    ∀ (recs : List (List Nat)) (k : Nat), writeSeq ok k recs = (recs, true)
  | [], _ => rfl
  | r :: rs, k => by
      simp [writeSeq, h k, writeSeq_all_ok ok h rs (k + 1)]

/-- When the write at offset `j` is the first to fail, the guarded write
sequence attempts exactly the first `j + 1` records (each once, nothing
after the failure, no retry) and reports failure (`exit(1)`). -/
lemma writeSeq_fail (ok : Nat → Bool) :
    ∀ (recs : List (List Nat)) (k j : Nat), ok (k + j) = false →
      (∀ i, i < j → ok (k + i) = true) → j < recs.length →
      writeSeq ok k recs = (recs.take (j + 1), false)
  | [], _, j, _, _, hlen => by simp at hlen
  | r :: rs, k, 0, hj, _, _ => by
      simp only [Nat.add_zero] at hj
      simp [writeSeq, hj]
  | r :: rs, k, j + 1, hj, hlt, hlen => by
      have h0 : ok k = true := by simpa using hlt 0 (Nat.succ_pos j)
      have hj2 : ok (k + 1 + j) = false := by
        rw [show k + 1 + j = k + (j + 1) by omega]; exact hj
      have hlt2 : ∀ i, i < j → ok (k + 1 + i) = true := fun i hi => by
        rw [show k + 1 + i = k + (i + 1) by omega]; exact hlt (i + 1) (by omega)
      have hlen2 : j < rs.length := by simpa using hlen
      simp [writeSeq, h0, writeSeq_fail ok rs (k + 1) j hj2 hlt2 hlen2]

/-- C9: every short write is fatal and never retried: if all header
writes succeed the six records are written once each in order; if the
j-th header write is short, exactly the first j+1 records were attempted
(each at most once — nothing after, no retry) and the program exits; a
short sample write in the async callback requests capture cancellation,
and in the sync loop it stops the loop immediately. -/
theorem c9_short_write_fatal (rate freq bits blk : Nat) (tm : Tm) (ok : Nat → Bool) (j : Nat)
    (s : CapState) (pm : PMState) (bs : List Nat) :
    ((∀ i, ok i = true) →
      writeSeq ok 0 (headerRecords rate freq bits tm) = (headerRecords rate freq bits tm, true)) ∧
    (ok j = false → (∀ i, i < j → ok i = true) → j < 6 →
      writeSeq ok 0 (headerRecords rate freq bits tm)
        = ((headerRecords rate freq bits tm).take (j + 1), false)) ∧
    (s.doExit = false → (rtlsdr_callback false s bs).cancelled = true) ∧
    (syncIter rate blk false (s, pm) bs).2 = true := by
  refine ⟨?_, ?_, ?_, ?_⟩
  · intro h
    exact writeSeq_all_ok ok h _ 0
  · intro hj hlt hlen
    have hl : (headerRecords rate freq bits tm).length = 6 := rfl
    exact writeSeq_fail ok _ 0 j (by simpa using hj) (fun i hi => by simpa using hlt i hi)
      (by rw [hl]; exact hlen)
  · intro h
    simp only [rtlsdr_callback, h, Bool.false_eq_true, if_false]
    split_ifs <;> rfl
  · simp only [syncIter]
    split_ifs <;> rfl

/-- C9 (witness). -/
theorem c9_short_write_fatal_witness :
    writeSeq (fun _ => true) 0 (headerRecords 2048000 100000000 8 ⟨125, 9, 11, 4, 30, 0⟩)
      = (headerRecords 2048000 100000000 8 ⟨125, 9, 11, 4, 30, 0⟩, true) ∧
    (rtlsdr_callback false ⟨false, 0, false, []⟩ [1, 2]).cancelled = true := by
  have h := c9_short_write_fatal 2048000 100000000 8 4 ⟨125, 9, 11, 4, 30, 0⟩
    (fun _ => true) 0 ⟨false, 0, false, []⟩ pmZero [1, 2]
  exact ⟨h.1 (fun i => rfl), h.2.2.1 rfl⟩

/-- C10 (counterexample): the claim says the mean is at most the peak at
every reporting instant; with odd-length buffers the loop feeds one more
channel-0 value per buffer than the counter records (reading past the
pairs, see the odd-buffer bug), so after three 3-byte buffers at sample
rate 1 the report carries channel-0 mean 2 — above the channel-0 peak 1. -/
theorem c10_counterexample_odd_buffers :
    (pmRun 1 pmZero [[0, 200, 0], [0, 200, 0], [0, 200, 0]]).2
      = [(1, 1, 2, 337 / 256)] ∧ ¬ ((2 : ℚ) ≤ 1) := by
  refine ⟨?_, by norm_num⟩
  norm_num [pmRun, pmBuffer, pmLoop, pmStep, pmZero, nrm, sqVal, interval_seconds]

/-- C10 (amended): over runs of even-length buffers, at every reporting
instant each channel's mean (sum / counter) is at most that channel's
peak, so peak / mean is at least 1 and the reported peak-to-average ratio
`db(peak / mean)` is nonnegative whenever the mean is nonzero. -/
theorem c10_mean_le_peak (rate : Nat) (bufs : List (List Nat))
    (h : ∀ b ∈ bufs, b.length % 2 = 0) (r : ℚ × ℚ × ℚ × ℚ)
    (hr : r ∈ (pmRun rate pmZero bufs).2) :
    r.2.2.1 ≤ r.1 ∧ r.2.2.2 ≤ r.2.1 ∧
    (r.2.2.1 ≠ 0 → 1 ≤ r.1 / r.2.2.1 ∧ 0 ≤ db ((r.1 / r.2.2.1 : ℚ) : ℝ)) ∧
    (r.2.2.2 ≠ 0 → 1 ≤ r.2.1 / r.2.2.2 ∧ 0 ≤ db ((r.2.1 / r.2.2.2 : ℚ) : ℝ)) := by
  obtain ⟨hp1, hp2, hm1, hm2, hle1, hle2⟩ := pmRun_reports rate bufs pmZero pmInv_zero h r hr
  have ratio : ∀ peak mean : ℚ, 0 ≤ mean → mean ≤ peak → mean ≠ 0 →
      1 ≤ peak / mean ∧ 0 ≤ db ((peak / mean : ℚ) : ℝ) := by
    intro peak mean h0 hle hne
    have hpos : 0 < mean := lt_of_le_of_ne h0 (Ne.symm hne)
    have h1 : 1 ≤ peak / mean := (one_le_div hpos).mpr hle
    refine ⟨h1, ?_⟩
    rw [db]
    have hc : (1 : ℝ) ≤ ((peak / mean : ℚ) : ℝ) := by exact_mod_cast h1
    have := Real.log_nonneg hc
    linarith
  exact ⟨hle1, hle2, fun hne => ratio r.1 r.2.2.1 hm1 hle1 hne,
    fun hne => ratio r.2.1 r.2.2.2 hm2 hle2 hne⟩

/-- C10 (witness for the amended statement). -/
theorem c10_mean_le_peak_witness :
    (1, 1, 1, 1) ∈ (pmRun 0 pmZero [[0, 0]]).2 ∧ ((1 : ℚ) ≤ 1) := by
  have he : (pmRun 0 pmZero [[0, 0]]).2 = [(1, 1, 1, 1)] := by
    norm_num [pmRun, pmBuffer, pmLoop, pmStep, pmZero, nrm, sqVal, interval_seconds]
  have hmem : ((1 : ℚ), (1 : ℚ), (1 : ℚ), (1 : ℚ)) ∈ (pmRun 0 pmZero [[0, 0]]).2 := by
    rw [he]; exact List.mem_singleton_self _
  exact ⟨hmem, (c10_mean_le_peak 0 [[0, 0]] (by decide) (1, 1, 1, 1) hmem).1⟩
